import Mathlib

/-!
Verification of the DlaPixy canvas editing engine (Electron/React/TypeScript
pixel editor).  The definitions below are a shallow embedding of the renderer
source: `src/src/editor/utils.ts` (pure helpers) and the `App` component in
`src/unnamed/part_003` (current version, lines 1426 onward), plus the canvas
size computation of `loadPng` (both the current version and the previous one
that honoured the legacy `grid` metadata key).

Modelling conventions:
* a `Uint8ClampedArray` RGBA buffer of side `N` is modelled pixel-wise as a
  function `(Nat × Nat) → RGBA`; the flat byte index `(y*N + x)*4 .. +3` of the
  source corresponds to the cell `(x, y)` here;
* `clonePixels` / `cloneSelection` are deep copies in the source, used only to
  avoid aliasing; in a pure functional model they are the identity copy;
* the `while` loops of the flood fill and of the Bresenham raster line are
  embedded with an explicit fuel parameter; the fuel chosen at each call site
  is an upper bound on the number of iterations the source loop can perform
  (each flood iteration consumes one stack entry, and entries are created only
  by the initial seed or by recolouring a cell, at most four per cell, each
  in-canvas cell being recoloured at most once; the raster loop advances at
  least one coordinate towards the endpoint at each iteration, which the
  proofs below establish).
-/

namespace DlaPixy

/-- One RGBA pixel (each component a byte 0..255 in the source). -/
structure RGBA where
  r : Nat
  g : Nat
  b : Nat
  a : Nat
deriving DecidableEq, Repr

/-- The all-zero, fully transparent pixel (fresh `Uint8ClampedArray` entries). -/
def RGBA.transparent : RGBA := ⟨0, 0, 0, 0⟩

/-- A canvas buffer, cell `(x, y)` to its RGBA value. -/
def PixelBuffer : Type := (Nat × Nat) → RGBA

/-- Tools of the editor (`type Tool` in the source). -/
inductive Tool where
  | pencil
  | eraser
  | fill
  | select
deriving DecidableEq, Repr

/-- A non-null rectangular selection (`type Selection`, non-null case). -/
structure Sel where
  x : Nat
  y : Nat
  w : Nat
  h : Nat
deriving DecidableEq, Repr

/-- Constants from the source (part_004 and the App component). -/
def MAX_UNDO : Nat := 40

def DEFAULT_CANVAS_SIZE : Int := 256

def MIN_CANVAS_SIZE : Int := 8

def MAX_CANVAS_SIZE : Int := 1024

/-- utils.ts `clonePixels`: deep copy of the buffer (identity here). -/
def clonePixels (pixels : PixelBuffer) : PixelBuffer := fun q => pixels q

/-- utils.ts `cloneSelection`: deep copy of a possibly-null selection. -/
def cloneSelection (selection : Option Sel) : Option Sel :=
  match selection with
  | none => none
  | some s => some ⟨s.x, s.y, s.w, s.h⟩

/-- utils.ts `clampCanvasSize`: clamp a requested size into the legal range. -/
def clampCanvasSize (size minCanvasSize maxCanvasSize : Int) : Int :=
  max minCanvasSize (min maxCanvasSize size)

/-- utils.ts `pointInSelection`, with the source's null-selection short circuit:
a null selection contains no point. -/
def pointInSelection (point : Nat × Nat) (selection : Option Sel) : Bool :=
  match selection with
  | none => false
  | some s =>
      decide (s.x ≤ point.1) && decide (s.y ≤ point.2) &&
      decide (point.1 < s.x + s.w) && decide (point.2 < s.y + s.h)

/-- The recurring guard `selection && !pointInSelection(p, selection)` of the
source: the point is blocked by an active selection mask. -/
def outsideActiveSelection (selection : Option Sel) (point : Nat × Nat) : Bool :=
  selection.isSome && !pointInSelection point selection

/-- utils.ts `blitBlockOnCanvas`: overwrite a `blockWidth × blockHeight` block
onto a clone of `basePixels` at offset `(destX, destY)`.  The `canvasSize`
stride parameter of the source is kept for signature parity; in the cell-wise
model the destination cell of block cell `(x, y)` is `(destX + x, destY + y)`
(all callers keep the block inside the canvas). -/
def blitBlockOnCanvas (basePixels : PixelBuffer) (canvasSize : Nat)
    (blockPixels : PixelBuffer) (blockWidth blockHeight destX destY : Nat) :
    PixelBuffer :=
  fun q =>
    if destX ≤ q.1 ∧ q.1 < destX + blockWidth ∧ destY ≤ q.2 ∧ q.2 < destY + blockHeight then
      blockPixels (q.1 - destX, q.2 - destY)
    else
      clonePixels basePixels q

/-! ## Undo history

`pushUndo` appends a snapshot to the end of the `undoStackRef` array and
shifts the oldest entry off the front when the capacity `MAX_UNDO` is
exceeded; `doUndo` pops from the end.  The JS array is modelled as a list,
index 0 (oldest) at the head. -/

/-- App `pushUndo` body: push a snapshot, evict the oldest entry when the
stack exceeds `MAX_UNDO` entries. -/
def pushUndo {α : Type} (stack : List α) (snapshot : α) : List α :=
  let s := stack ++ [snapshot]
  if MAX_UNDO < s.length then s.drop 1 else s

/-- App `doUndo`'s stack access: `undoStackRef.current.pop()` — remove and
return the newest snapshot, or nothing when the history is empty. -/
def popUndo {α : Type} : List α → Option (α × List α)
  | [] => none
  | x :: xs => some ((x :: xs).getLast (List.cons_ne_nil x xs), (x :: xs).dropLast)

/-- Iterate `pushUndo` over a sequence of snapshots, oldest first. -/
def pushAll {α : Type} (stack : List α) (snapshots : List α) : List α :=
  snapshots.foldl pushUndo stack

/-- Pop snapshots with `popUndo` until the history is empty, returning them in
pop order; the fuel is the starting length, enough for every pop. -/
def popAllAux {α : Type} : Nat → List α → List α
  | 0, _ => []
  | fuel + 1, s =>
      match popUndo s with
      | none => []
      | some (top, rest) => top :: popAllAux fuel rest

/-- All snapshots retrievable by repeated `doUndo` pops, newest first. -/
def popAll {α : Type} (s : List α) : List α := popAllAux s.length s

/-! ## Raster line (utils.ts `rasterLinePoints`)

Bresenham walk from `(x0, y0)` to `(x1, y1)`.  The body of the source's
`while (true)` loop is `rasterLineLoop`; the fuel `dx + dy + 1` bounds the
number of iterations (each iteration either reaches the endpoint or moves at
least one coordinate one step towards it, proved below). -/

/-- One-iteration-per-fuel-unit embedding of the `while (true)` loop of
`rasterLinePoints`: push the current cell, stop at the endpoint, otherwise
advance `cx`/`cy` and the error term exactly as the source does. -/
def rasterLineLoop (x1 y1 dx dy sx sy : Int) :
    Nat → Int → Int → Int → List (Int × Int)
  | 0, _, _, _ => []
  | fuel + 1, cx, cy, err =>
      (cx, cy) ::
        (if cx = x1 ∧ cy = y1 then []
         else
           let e2 := 2 * err
           let err1 := if e2 > -dy then err - dy else err
           let cx1 := if e2 > -dy then cx + sx else cx
           let err2 := if e2 < dx then err1 + dx else err1
           let cy1 := if e2 < dx then cy + sy else cy
           rasterLineLoop x1 y1 dx dy sx sy fuel cx1 cy1 err2)

/-- utils.ts `rasterLinePoints`: every cell of the Bresenham line from
`(x0, y0)` to `(x1, y1)`, endpoints included, in walk order. -/
def rasterLinePoints (x0 y0 x1 y1 : Int) : List (Int × Int) :=
  let dx := |x1 - x0|
  let dy := |y1 - y0|
  let sx : Int := if x0 < x1 then 1 else -1
  let sy : Int := if y0 < y1 then 1 else -1
  rasterLineLoop x1 y1 dx dy sx sy (dx.toNat + dy.toNat + 1) x0 y0 (dx - dy)

/-- Two cells are 8-connected neighbours: each coordinate differs by at most
one and the cells are distinct. -/
def adjacent8 (p q : Int × Int) : Prop :=
  (q.1 - p.1).natAbs ≤ 1 ∧ (q.2 - p.2).natAbs ≤ 1 ∧ q ≠ p

instance : DecidablePred fun pq : (Int × Int) × (Int × Int) => adjacent8 pq.1 pq.2 :=
  fun _ => by unfold adjacent8; infer_instance

/-! ## Flood fill (App `createFloodFillResult`)

Iterative DFS with an explicit stack.  The JS array used as a stack pushes at
and pops from its end; it is modelled as a list whose head is the top, so the
source's four pushes (left, right, up, down) cons in that order and the next
pop takes the last cell consed.  The fuel `4*n*n + 1` bounds the number of
iterations of the source loop: each iteration consumes one stack entry, and
entries are created only by the seed (one) or when a cell is recoloured (at
most four), every cell of the canvas being recoloured at most once. -/

/-- The neighbour pushes at the end of one `createFloodFillResult` loop
iteration: each of left/right/up/down is pushed when it stays on the canvas
and (when a selection is active) inside the selection. -/
def fillNeighborPush (canvasSize : Nat) (selection : Option Sel)
    (node : Nat × Nat) (stack : List (Nat × Nat)) : List (Nat × Nat) :=
  let s1 := if 0 < node.1 && !outsideActiveSelection selection (node.1 - 1, node.2) then
              (node.1 - 1, node.2) :: stack else stack
  let s2 := if node.1 + 1 < canvasSize && !outsideActiveSelection selection (node.1 + 1, node.2) then
              (node.1 + 1, node.2) :: s1 else s1
  let s3 := if 0 < node.2 && !outsideActiveSelection selection (node.1, node.2 - 1) then
              (node.1, node.2 - 1) :: s2 else s2
  let s4 := if node.2 + 1 < canvasSize && !outsideActiveSelection selection (node.1, node.2 + 1) then
              (node.1, node.2 + 1) :: s3 else s3
  s4

/-- One-iteration-per-fuel-unit embedding of the DFS loop of
`createFloodFillResult`: pop a cell; skip it when it is blocked by the
selection mask or no longer carries the target colour; otherwise recolour it
with the replacement colour, record that something changed, and push its
eligible neighbours. -/
def floodLoop (canvasSize : Nat) (selection : Option Sel) (target repl : RGBA) :
    Nat → PixelBuffer → List (Nat × Nat) → Bool → PixelBuffer × Bool
  | 0, buf, _, changed => (buf, changed)
  | fuel + 1, buf, stack, changed =>
      match stack with
      | [] => (buf, changed)
      | node :: rest =>
          if outsideActiveSelection selection node then
            floodLoop canvasSize selection target repl fuel buf rest changed
          else if buf node ≠ target then
            floodLoop canvasSize selection target repl fuel buf rest changed
          else
            floodLoop canvasSize selection target repl fuel
              (fun q => if q = node then repl else buf q)
              (fillNeighborPush canvasSize selection node rest) true

/-- Fuel bound for `floodLoop` (see the section comment). -/
def fillFuel (canvasSize : Nat) : Nat := 4 * canvasSize * canvasSize + 1

/-- App `createFloodFillResult`: selection-aware flood fill.  Returns `none`
(the source's `null`, the no-change signal) when the start cell is blocked by
an active selection, when the start colour already equals the replacement
colour, or when nothing was recoloured; otherwise the recoloured buffer. -/
def createFloodFillResult (canvasSize : Nat) (selection : Option Sel)
    (repl : RGBA) (source : PixelBuffer) (start : Nat × Nat) :
    Option PixelBuffer :=
  if outsideActiveSelection selection start then none
  else
    let target := source start
    if target = repl then none
    else
      let r := floodLoop canvasSize selection target repl (fillFuel canvasSize)
                 (clonePixels source) [start] false
      if r.2 then some r.1 else none

/-- Apply a flood fill as the caller does: keep the buffer unchanged when the
fill reports no change, take the recoloured buffer otherwise. -/
def applyFill (canvasSize : Nat) (selection : Option Sel) (repl : RGBA)
    (buf : PixelBuffer) (start : Nat × Nat) : PixelBuffer :=
  (createFloodFillResult canvasSize selection repl buf start).getD buf

/-! ## Editor state and operations (App component, current version) -/

/-- The internal clipboard `selectionClipboardRef`: a copied rectangular block
plus the origin it was copied from. -/
structure Clipboard where
  width : Nat
  height : Nat
  pixels : PixelBuffer
  sourceX : Nat
  sourceY : Nat

/-- The floating block `floatingPasteRef`: a block composited at `(x, y)` over
`basePixels`, carrying the full pre-float state for cancel. -/
structure FloatingPaste where
  x : Nat
  y : Nat
  width : Nat
  height : Nat
  pixels : PixelBuffer
  basePixels : PixelBuffer
  restorePixels : PixelBuffer
  restoreSelection : Option Sel
  restoreTool : Tool

/-- The status toasts the modelled operations emit (`setStatusText` calls),
tagged by message rather than by the literal string. -/
inductive EditorStatus where
  | idle
  | pasteNoClipboard
  | pasteOutOfBounds
  | pasted
  | fillApplied
  | fillNoTarget
  | floatingFinalized
  | floatingCanceled
  | selectionCleared
  | undoEmpty
  | undoApplied
deriving DecidableEq, Repr

/-- The App component state the modelled operations read and write: buffer,
selection, tool, pencil colour bytes, undo stack, clipboard, floating block,
dirty flag and last status toast. -/
structure EditorState where
  canvasSize : Nat
  pixels : PixelBuffer
  selection : Option Sel
  tool : Tool
  colorR : Nat
  colorG : Nat
  colorB : Nat
  undoStack : List PixelBuffer
  clipboard : Option Clipboard
  floating : Option FloatingPaste
  hasUnsavedChanges : Bool
  status : EditorStatus

/-- The fill replacement colour: the selected colour bytes with alpha 255
(`[colorBytes.r, colorBytes.g, colorBytes.b, 255]` in the source). -/
def replacementColor (st : EditorState) : RGBA :=
  ⟨st.colorR, st.colorG, st.colorB, 255⟩

/-- App `clearFloatingPaste`: drop the floating block without restoring. -/
def clearFloatingPaste (st : EditorState) : EditorState :=
  { st with floating := none }

/-- App `cancelFloatingPaste`: when a floating block exists, restore the saved
pixels, selection and tool, drop the block and toast a warning; otherwise do
nothing. -/
def cancelFloatingPaste (st : EditorState) : EditorState :=
  match st.floating with
  | none => st
  | some floating =>
      { st with
        pixels := clonePixels floating.restorePixels
        selection := cloneSelection floating.restoreSelection
        tool := floating.restoreTool
        floating := none
        status := EditorStatus.floatingCanceled }

/-- App `finalizeFloatingPaste`: when a floating block exists, keep the
composited pixels, drop the block, mark the document dirty and toast. -/
def finalizeFloatingPaste (st : EditorState) : EditorState :=
  match st.floating with
  | none => st
  | some _ =>
      { st with
        floating := none
        hasUnsavedChanges := true
        status := EditorStatus.floatingFinalized }

/-- App `onMouseDown`, fill-tool branch: compute the flood fill; when it
reports a change, push one undo snapshot of the pre-fill buffer and apply the
result; either way force-clear any floating block and toast. -/
def onMouseDownFill (st : EditorState) (cell : Nat × Nat) : EditorState :=
  match createFloodFillResult st.canvasSize st.selection (replacementColor st)
          st.pixels cell with
  | some filled =>
      { st with
        undoStack := pushUndo st.undoStack (clonePixels st.pixels)
        pixels := filled
        hasUnsavedChanges := true
        floating := none
        status := EditorStatus.fillApplied }
  | none =>
      { st with
        floating := none
        status := EditorStatus.fillNoTarget }

/-- App `onKeyDown`, `Escape` case: cancel the floating block when one exists,
otherwise clear an active selection, otherwise do nothing. -/
def onEscape (st : EditorState) : EditorState :=
  match st.floating with
  | some _ => cancelFloatingPaste st
  | none =>
      match st.selection with
      | some _ => { st with selection := none, status := EditorStatus.selectionCleared }
      | none => st

/-- App `doUndo`: pop the newest snapshot (a no-op toast when the history is
empty), make it the live buffer, and force-clear any floating block. -/
def doUndo (st : EditorState) : EditorState :=
  match popUndo st.undoStack with
  | none => { st with status := EditorStatus.undoEmpty }
  | some (previous, rest) =>
      { st with
        pixels := previous
        undoStack := rest
        floating := none
        hasUnsavedChanges := true
        status := EditorStatus.undoApplied }

/-! ## Paste (App `pasteSelection`)

The destination geometry is computed with JavaScript number arithmetic, which
the source writes with `Math.max`/`Math.min`; it is embedded over `Int`. -/

/-- `baseX` of `pasteSelection`. -/
def pasteBaseX (canvasSize : Int) (selection : Option Sel) (clip : Clipboard) : Int :=
  match selection with
  | some s => (s.x : Int)
  | none => min ((clip.sourceX : Int) + 1) (canvasSize - 1)

/-- `baseY` of `pasteSelection`. -/
def pasteBaseY (canvasSize : Int) (selection : Option Sel) (clip : Clipboard) : Int :=
  match selection with
  | some s => (s.y : Int)
  | none => min ((clip.sourceY : Int) + 1) (canvasSize - 1)

/-- `pasteX` of `pasteSelection`. -/
def pasteX (canvasSize : Int) (selection : Option Sel) (clip : Clipboard) : Int :=
  max 0 (min (pasteBaseX canvasSize selection clip) (canvasSize - 1))

/-- `pasteY` of `pasteSelection`. -/
def pasteY (canvasSize : Int) (selection : Option Sel) (clip : Clipboard) : Int :=
  max 0 (min (pasteBaseY canvasSize selection clip) (canvasSize - 1))

/-- `pasteWidth` of `pasteSelection`. -/
def pasteWidth (canvasSize : Int) (selection : Option Sel) (clip : Clipboard) : Int :=
  max 0 (min (clip.width : Int) (canvasSize - pasteX canvasSize selection clip))

/-- `pasteHeight` of `pasteSelection`. -/
def pasteHeight (canvasSize : Int) (selection : Option Sel) (clip : Clipboard) : Int :=
  max 0 (min (clip.height : Int) (canvasSize - pasteY canvasSize selection clip))

/-- The `pastedPixels` block of `pasteSelection`: the clipboard block
truncated to `pw × ph` (cells beyond stay at the fresh array's zeros). -/
def truncatedClipBlock (clip : Clipboard) (pw ph : Nat) : PixelBuffer :=
  fun q => if q.1 < pw ∧ q.2 < ph then clip.pixels q else RGBA.transparent

/-- App `pasteSelection`: no-op toast without a clipboard; otherwise clamp the
destination, no-op toast when the clamped area is empty, else push one undo
snapshot, composite the truncated block, create the floating block, switch the
tool to select and set the selection to the pasted footprint. -/
def pasteSelection (st : EditorState) : EditorState :=
  match st.clipboard with
  | none => { st with status := EditorStatus.pasteNoClipboard }
  | some clip =>
      let n : Int := (st.canvasSize : Int)
      let pw := pasteWidth n st.selection clip
      let ph := pasteHeight n st.selection clip
      if pw = 0 ∨ ph = 0 then
        { st with status := EditorStatus.pasteOutOfBounds }
      else
        let px := (pasteX n st.selection clip).toNat
        let py := (pasteY n st.selection clip).toNat
        let pwn := pw.toNat
        let phn := ph.toNat
        let basePixels := clonePixels st.pixels
        let pastedPixels := truncatedClipBlock clip pwn phn
        let composited :=
          blitBlockOnCanvas basePixels st.canvasSize pastedPixels pwn phn px py
        { st with
          undoStack := pushUndo st.undoStack (clonePixels st.pixels)
          pixels := composited
          floating := some
            { x := px, y := py, width := pwn, height := phn
              pixels := pastedPixels
              basePixels := basePixels
              restorePixels := clonePixels st.pixels
              restoreSelection := cloneSelection st.selection
              restoreTool := st.tool }
          tool := Tool.select
          selection := some ⟨px, py, pwn, phn⟩
          status := EditorStatus.pasted }

/-! ## PNG load canvas size (App `loadPng`)

Only the canvas size computation is modelled: the size is taken from the
embedded metadata, with a fallback to the decoded image's own square
dimension, else the default 256, and clamped into the legal range.  The
current version (part_003, line 2961) reads only `metadata?.canvasSize`; the
previous version (part_003, line 1132) fell back to the legacy `grid` key
first. -/

/-- The metadata fields relevant to the canvas size, as parsed from the PNG
(`EditorMeta`, whose electron-side declaration still carries the legacy
`grid` key). -/
structure LoadedMeta where
  canvasSize : Option Int
  grid : Option Int

/-- `fallbackSize` of `loadPng`: the image's own dimension when square, else
the default canvas size. -/
def loadFallbackSize (imgWidth imgHeight : Int) : Int :=
  if imgWidth = imgHeight then imgWidth else DEFAULT_CANVAS_SIZE

/-- `targetCanvasSize` of the current `loadPng`:
`clampCanvasSize(result.metadata?.canvasSize ?? fallbackSize, MIN, MAX)`. -/
def loadTargetCanvasSize (metadata : Option LoadedMeta) (imgWidth imgHeight : Int) : Int :=
  clampCanvasSize ((metadata.bind LoadedMeta.canvasSize).getD
      (loadFallbackSize imgWidth imgHeight))
    MIN_CANVAS_SIZE MAX_CANVAS_SIZE

/-- `targetCanvasSize` of the previous version's `loadPng`:
`clampCanvasSize(result.metadata?.canvasSize ?? result.metadata?.grid ?? fallbackSize)`,
the legacy `grid` fallback the current version dropped. -/
def loadTargetCanvasSizePrev (metadata : Option LoadedMeta) (imgWidth imgHeight : Int) : Int :=
  clampCanvasSize ((metadata.bind LoadedMeta.canvasSize).getD
      ((metadata.bind LoadedMeta.grid).getD (loadFallbackSize imgWidth imgHeight)))
    MIN_CANVAS_SIZE MAX_CANVAS_SIZE

/-! ## Concrete demo states used by the witness theorems -/

def demoZeroPix : PixelBuffer := fun _ => RGBA.transparent

def demoCancelFloat : FloatingPaste :=
  { x := 1, y := 1, width := 4, height := 4
    pixels := demoZeroPix, basePixels := demoZeroPix
    restorePixels := demoZeroPix
    restoreSelection := some ⟨0, 0, 4, 4⟩
    restoreTool := Tool.pencil }

def demoCancelState : EditorState :=
  { canvasSize := 16, pixels := demoZeroPix, selection := some ⟨1, 1, 4, 4⟩
    tool := Tool.select, colorR := 0, colorG := 0, colorB := 0
    undoStack := [], clipboard := none, floating := some demoCancelFloat
    hasUnsavedChanges := true, status := EditorStatus.pasted }

def demoEscapeState : EditorState :=
  { canvasSize := 16, pixels := demoZeroPix, selection := some ⟨2, 3, 4, 5⟩
    tool := Tool.pencil, colorR := 0, colorG := 0, colorB := 0
    undoStack := [demoZeroPix], clipboard := none, floating := none
    hasUnsavedChanges := false, status := EditorStatus.idle }

def demoGrayPix : PixelBuffer := fun _ => ⟨7, 7, 7, 255⟩

def demoFillState : EditorState :=
  { canvasSize := 16, pixels := demoGrayPix, selection := some ⟨2, 2, 3, 3⟩
    tool := Tool.fill, colorR := 255, colorG := 0, colorB := 0
    undoStack := [], clipboard := none, floating := none
    hasUnsavedChanges := false, status := EditorStatus.idle }

def demoFillHitState : EditorState :=
  { canvasSize := 2, pixels := demoZeroPix, selection := none
    tool := Tool.fill, colorR := 20, colorG := 30, colorB := 40
    undoStack := [], clipboard := none, floating := none
    hasUnsavedChanges := false, status := EditorStatus.idle }

def demoPasteEdgeState : EditorState :=
  { canvasSize := 16, pixels := demoZeroPix, selection := none
    tool := Tool.pencil, colorR := 0, colorG := 0, colorB := 0
    undoStack := []
    clipboard := some { width := 4, height := 4, pixels := demoGrayPix
                        sourceX := 14, sourceY := 14 }
    floating := none, hasUnsavedChanges := false, status := EditorStatus.idle }

def demoPasteState : EditorState :=
  { canvasSize := 16, pixels := demoZeroPix, selection := none
    tool := Tool.pencil, colorR := 0, colorG := 0, colorB := 0
    undoStack := []
    clipboard := some { width := 4, height := 4, pixels := demoGrayPix
                        sourceX := 0, sourceY := 0 }
    floating := none, hasUnsavedChanges := false, status := EditorStatus.idle }

/-! ## General lemmas -/

/-- Cloning a selection returns an equal selection. -/
theorem cloneSelection_eq (selection : Option Sel) :
    cloneSelection selection = selection := by
  cases selection <;> rfl

/-- A fresh undo push is the newest entry of the stack. -/
theorem getLast?_pushUndo {α : Type} (stack : List α) (x : α) :
    (pushUndo stack x).getLast? = some x := by
  unfold pushUndo
  dsimp only
  split
  next h =>
    cases stack with
    | nil => simp [MAX_UNDO] at h
    | cons a t => simp
  next h => simp

/-! ## C1 — legacy canvas-size metadata key -/

/-- Claim C1 (code_bug evidence): the current `loadPng` ignores the legacy
`grid` metadata key.  For a 256×256 PNG whose metadata has no `canvasSize`
but carries `grid = 128`, the current loader yields canvas size 256 (the
image's own dimension) rather than the 128 the spec's backward-compatibility
rule demands, while the previous version of `loadPng` yielded 128. -/
theorem loadPng_ignores_legacy_grid :
    loadTargetCanvasSize (some ⟨none, some 128⟩) 256 256 = 256 ∧
    loadTargetCanvasSize (some ⟨none, some 128⟩) 256 256 ≠ 128 ∧
    loadTargetCanvasSizePrev (some ⟨none, some 128⟩) 256 256 = 128 := by
  refine ⟨by decide, by decide, by decide⟩

/-! ## C3 — Escape cancels a floating block with a full rollback -/

/-- Claim C3: for every state holding a floating block, the Escape/cancel
action restores the pixel buffer to the saved `restorePixels`, the selection
to the saved `restoreSelection` and the active tool to the saved
`restoreTool` (undoing any tool switch that happened meanwhile), and removes
the floating block. -/
theorem cancelFloatingPaste_restores (st : EditorState) (floating : FloatingPaste)
    (h : st.floating = some floating) :
    (cancelFloatingPaste st).pixels = floating.restorePixels ∧
    (cancelFloatingPaste st).selection = floating.restoreSelection ∧
    (cancelFloatingPaste st).tool = floating.restoreTool ∧
    (cancelFloatingPaste st).floating = none := by
  unfold cancelFloatingPaste
  rw [h]
  exact ⟨rfl, cloneSelection_eq _, rfl, rfl⟩




/-- Concrete instance of C3: cancelling a floating block restores the saved
pixels, selection and tool and drops the block. -/
theorem cancelFloatingPaste_restores_witness :
    (cancelFloatingPaste demoCancelState).pixels = demoCancelFloat.restorePixels ∧
    (cancelFloatingPaste demoCancelState).selection = demoCancelFloat.restoreSelection ∧
    (cancelFloatingPaste demoCancelState).tool = demoCancelFloat.restoreTool ∧
    (cancelFloatingPaste demoCancelState).floating = none :=
  cancelFloatingPaste_restores demoCancelState demoCancelFloat rfl

/-! ## C9 — Escape with a selection but no floating block -/

/-- Claim C9 (implicit): pressing Escape with no floating block but an active
selection clears the selection while leaving the pixel buffer, the undo
history, and the active tool unchanged. -/
theorem escape_clears_selection_only (st : EditorState) (s : Sel)
    (hf : st.floating = none) (hs : st.selection = some s) :
    (onEscape st).selection = none ∧
    (onEscape st).pixels = st.pixels ∧
    (onEscape st).undoStack = st.undoStack ∧
    (onEscape st).tool = st.tool ∧
    (onEscape st).floating = none := by
  unfold onEscape
  rw [hf, hs]
  exact ⟨rfl, rfl, rfl, rfl, rfl⟩


/-- Concrete instance of C9: Escape on a selection-only state clears just the
selection. -/
theorem escape_clears_selection_only_witness :
    (onEscape demoEscapeState).selection = none ∧
    (onEscape demoEscapeState).pixels = demoEscapeState.pixels ∧
    (onEscape demoEscapeState).undoStack = demoEscapeState.undoStack ∧
    (onEscape demoEscapeState).tool = demoEscapeState.tool ∧
    (onEscape demoEscapeState).floating = none :=
  escape_clears_selection_only demoEscapeState ⟨2, 3, 4, 5⟩ rfl rfl

/-! ## Flood fill lemmas -/

/-- A cell blocked by the active selection mask is never rewritten by the
fill loop, whatever the stack holds. -/
theorem floodLoop_outside_unchanged (n : Nat) (selection : Option Sel)
    (target repl : RGBA) (p : Nat × Nat)
    (hp : outsideActiveSelection selection p = true) :
    ∀ (fuel : Nat) (buf : PixelBuffer) (stack : List (Nat × Nat)) (changed : Bool),
      (floodLoop n selection target repl fuel buf stack changed).1 p = buf p := by
  intro fuel
  induction fuel with
  | zero => intro buf stack changed; rfl
  | succ fuel ih =>
      intro buf stack changed
      cases stack with
      | nil => rfl
      | cons node rest =>
          by_cases h1 : outsideActiveSelection selection node = true
          · simp only [floodLoop, h1, if_true]
            exact ih buf rest changed
          · have h1' : outsideActiveSelection selection node = false := by
              revert h1; cases outsideActiveSelection selection node <;> simp
            simp only [floodLoop, h1', Bool.false_eq_true, if_false]
            by_cases h2 : buf (node.1, node.2) ≠ target
            · rw [if_pos]
              · exact ih buf rest changed
              · cases node; exact h2
            · rw [if_neg]
              · have hpn : p ≠ node := by
                  intro he; rw [he] at hp; rw [hp] at h1'; cases h1'
                rw [ih]
                simp [hpn]
              · cases node; exact h2

/-- Once a cell already carries the replacement colour it keeps it through
the fill loop. -/
theorem floodLoop_repl_persists (n : Nat) (selection : Option Sel)
    (target repl : RGBA) (p : Nat × Nat) :
    ∀ (fuel : Nat) (buf : PixelBuffer) (stack : List (Nat × Nat)) (changed : Bool),
      buf p = repl →
      (floodLoop n selection target repl fuel buf stack changed).1 p = repl := by
  intro fuel
  induction fuel with
  | zero => intro buf stack changed h; exact h
  | succ fuel ih =>
      intro buf stack changed h
      cases stack with
      | nil => exact h
      | cons node rest =>
          by_cases h1 : outsideActiveSelection selection node = true
          · simp only [floodLoop, h1, if_true]
            exact ih buf rest changed h
          · have h1' : outsideActiveSelection selection node = false := by
              revert h1; cases outsideActiveSelection selection node <;> simp
            simp only [floodLoop, h1', Bool.false_eq_true, if_false]
            by_cases h2 : buf (node.1, node.2) ≠ target
            · rw [if_pos]
              · exact ih buf rest changed h
              · cases node; exact h2
            · rw [if_neg]
              · apply ih
                by_cases hpn : p = node <;> simp [hpn, h]
              · cases node; exact h2

/-- When the start cell is blocked by the active selection mask the fill is a
no-op signal. -/
theorem createFloodFillResult_outside (n : Nat) (selection : Option Sel)
    (repl : RGBA) (source : PixelBuffer) (start : Nat × Nat)
    (h : outsideActiveSelection selection start = true) :
    createFloodFillResult n selection repl source start = none := by
  unfold createFloodFillResult
  rw [if_pos h]

/-- When the fill reports a change, the start cell was not blocked and, in the
result, carries the replacement colour; moreover cells blocked by the mask
keep their source colour. -/
theorem createFloodFillResult_some (n : Nat) (selection : Option Sel)
    (repl : RGBA) (source : PixelBuffer) (start : Nat × Nat) (b' : PixelBuffer)
    (h : createFloodFillResult n selection repl source start = some b') :
    outsideActiveSelection selection start = false ∧
    b' start = repl ∧
    ∀ p, outsideActiveSelection selection p = true → b' p = source p := by
  unfold createFloodFillResult at h
  by_cases h0 : outsideActiveSelection selection start = true
  · rw [if_pos h0] at h; cases h
  · have h0' : outsideActiveSelection selection start = false := by
      revert h0; cases outsideActiveSelection selection start <;> simp
    rw [if_neg] at h
    swap
    · rw [h0']; simp
    by_cases h1 : source start = repl
    · rw [if_pos h1] at h; cases h
    · rw [if_neg h1] at h
      dsimp only at h
      split at h
      · have hb : b' = (floodLoop n selection (source start) repl (fillFuel n)
            (clonePixels source) [start] false).1 := by
          cases h; rfl
        refine ⟨h0', ?_, ?_⟩
        · rw [hb]
          have hstep : floodLoop n selection (source start) repl (fillFuel n)
              (clonePixels source) [start] false =
              floodLoop n selection (source start) repl (4 * n * n)
                (fun q => if q = start then repl else clonePixels source q)
                (fillNeighborPush n selection start []) true := by
            show floodLoop n selection (source start) repl (4 * n * n + 1)
              (clonePixels source) [start] false = _
            simp only [floodLoop, h0', Bool.false_eq_true, if_false]
            rw [if_neg]
            intro hne
            exact hne rfl
          rw [hstep]
          apply floodLoop_repl_persists
          simp
        · intro p hp
          rw [hb]
          exact floodLoop_outside_unchanged n selection (source start) repl p hp _ _ _ _
      · cases h

/-! ## C5 — flood fill confined to the selection mask -/

/-- Claim C5: when a rectangular selection is active, the fill action changes
only cells inside the selection: every cell outside the mask keeps its value,
even if it carries the start colour and is 4-connected to the filled region. -/
theorem fill_confined_to_selection (st : EditorState) (cell p : Nat × Nat) (s : Sel)
    (hs : st.selection = some s) (hp : pointInSelection p st.selection = false) :
    (onMouseDownFill st cell).pixels p = st.pixels p := by
  have hout : outsideActiveSelection st.selection p = true := by
    rw [hs] at hp ⊢
    rw [outsideActiveSelection, hp]
    rfl
  unfold onMouseDownFill
  cases h : createFloodFillResult st.canvasSize st.selection (replacementColor st)
      st.pixels cell with
  | none => rfl
  | some filled =>
      exact (createFloodFillResult_some _ _ _ _ _ _ h).2.2 p hout



/-- Concrete instance of C5 (Scenario B): on a 16×16 canvas with selection
(2,2,3,3) and a fill pressed at (3,3), the cell (1,2) just outside the mask
is untouched even though it carries the same start colour. -/
theorem fill_confined_to_selection_witness :
    (onMouseDownFill demoFillState (3, 3)).pixels (1, 2) =
      demoFillState.pixels (1, 2) :=
  fill_confined_to_selection demoFillState (3, 3) (1, 2) ⟨2, 2, 3, 3⟩ rfl (by decide)

/-! ## C7 — flood fill idempotence -/

/-- Claim C7: flood fill is idempotent.  For every buffer, start cell,
selection state and replacement colour, the second application from the same
start with the same colour reports no change (`none`, the no-change signal),
so applying the fill twice yields the same buffer as applying it once. -/
theorem fill_idempotent (n : Nat) (selection : Option Sel) (repl : RGBA)
    (buf : PixelBuffer) (start : Nat × Nat) :
    createFloodFillResult n selection repl
        (applyFill n selection repl buf start) start = none ∧
    applyFill n selection repl
        (applyFill n selection repl buf start) start =
      applyFill n selection repl buf start := by
  cases h : createFloodFillResult n selection repl buf start with
  | none =>
      have hap : applyFill n selection repl buf start = buf := by
        rw [applyFill, h]; rfl
      rw [hap]
      exact ⟨h, by rw [applyFill, h]; rfl⟩
  | some b' =>
      have hap : applyFill n selection repl buf start = b' := by
        rw [applyFill, h]; rfl
      obtain ⟨hout, hstart, -⟩ := createFloodFillResult_some _ _ _ _ _ _ h
      have hnone : createFloodFillResult n selection repl b' start = none := by
        unfold createFloodFillResult
        rw [if_neg]
        · rw [if_pos hstart]
        · rw [hout]; simp
      rw [hap]
      exact ⟨hnone, by rw [applyFill, hnone]; rfl⟩

/-! ## C6 — the fill action's undo discipline -/

/-- Claim C6: the fill branch of `onMouseDown` pushes no undo snapshot and
leaves the buffer unchanged when the flood fill reports no change (in
particular whenever the pressed cell is outside an active selection mask);
when the fill does change the buffer, exactly one snapshot is pushed, it is
the newest history entry, it equals the buffer immediately before the fill
result is applied, and the fill result becomes the buffer. -/
theorem fill_undo_discipline (st : EditorState) (cell : Nat × Nat) :
    (createFloodFillResult st.canvasSize st.selection (replacementColor st)
        st.pixels cell = none →
      (onMouseDownFill st cell).undoStack = st.undoStack ∧
      (onMouseDownFill st cell).pixels = st.pixels) ∧
    (∀ s : Sel, st.selection = some s →
      pointInSelection cell st.selection = false →
      createFloodFillResult st.canvasSize st.selection (replacementColor st)
        st.pixels cell = none) ∧
    (∀ filled : PixelBuffer,
      createFloodFillResult st.canvasSize st.selection (replacementColor st)
        st.pixels cell = some filled →
      (onMouseDownFill st cell).undoStack = pushUndo st.undoStack st.pixels ∧
      (onMouseDownFill st cell).undoStack.getLast? = some st.pixels ∧
      (onMouseDownFill st cell).pixels = filled) := by
  refine ⟨?_, ?_, ?_⟩
  · intro h
    unfold onMouseDownFill
    rw [h]
    exact ⟨rfl, rfl⟩
  · intro s hs hp
    apply createFloodFillResult_outside
    rw [hs] at hp ⊢
    rw [outsideActiveSelection, hp]
    rfl
  · intro filled h
    unfold onMouseDownFill
    rw [h]
    exact ⟨rfl, getLast?_pushUndo _ _, rfl⟩


/-- Concrete instances of C6: a press outside the active selection yields the
no-change signal, and a successful fill on an empty 2×2 canvas pushes exactly
the pre-fill snapshot. -/
theorem fill_undo_discipline_witness :
    createFloodFillResult demoFillState.canvasSize demoFillState.selection
        (replacementColor demoFillState) demoFillState.pixels (0, 0) = none ∧
    ((onMouseDownFill demoFillHitState (0, 0)).undoStack =
        pushUndo demoFillHitState.undoStack demoFillHitState.pixels ∧
      (onMouseDownFill demoFillHitState (0, 0)).undoStack.getLast? =
        some demoFillHitState.pixels) := by
  constructor
  · exact (fill_undo_discipline demoFillState (0, 0)).2.1 ⟨2, 2, 3, 3⟩ rfl (by decide)
  · have h := (fill_undo_discipline demoFillHitState (0, 0)).2.2
      ((createFloodFillResult demoFillHitState.canvasSize demoFillHitState.selection
          (replacementColor demoFillHitState) demoFillHitState.pixels (0, 0)).get
        (by decide))
      (Option.some_get (by decide)).symm
    exact ⟨h.1, h.2.1⟩

/-! ## C2 — undo history is a bounded LIFO with FIFO eviction -/

/-- Pushing preserves the capacity invariant of the undo stack. -/
theorem length_pushUndo_le {α : Type} (stack : List α) (x : α)
    (h : stack.length ≤ MAX_UNDO) : (pushUndo stack x).length ≤ MAX_UNDO := by
  unfold pushUndo
  dsimp only
  split
  next hlt => simp; omega
  next hlt => simp at hlt ⊢; omega

/-- Iterated pushes keep exactly the newest `MAX_UNDO` snapshots: the result
is the concatenation with the overflow dropped from the oldest end. -/
theorem pushAll_eq_drop {α : Type} :
    ∀ (snapshots stack : List α), stack.length ≤ MAX_UNDO →
      pushAll stack snapshots =
        (stack ++ snapshots).drop (stack.length + snapshots.length - MAX_UNDO) := by
  intro snapshots
  induction snapshots with
  | nil =>
      intro stack h
      simp only [List.append_nil, List.length_nil, Nat.add_zero]
      rw [Nat.sub_eq_zero_of_le h, List.drop_zero]
      rfl
  | cons b bs ih =>
      intro stack h
      have hstep : pushAll stack (b :: bs) = pushAll (pushUndo stack b) bs := rfl
      rw [hstep, ih (pushUndo stack b) (length_pushUndo_le stack b h)]
      unfold pushUndo
      dsimp only
      split
      next hlt =>
        cases stack with
        | nil =>
            exfalso
            simp only [List.nil_append, List.length_singleton, MAX_UNDO] at hlt
            omega
        | cons a t =>
            have hdrop1 : (a :: t ++ [b]).drop 1 = t ++ [b] := by
              rw [List.cons_append, List.drop_succ_cons, List.drop_zero]
            rw [hdrop1]
            simp only [List.length_cons, MAX_UNDO] at h
            simp only [List.cons_append, List.length_cons, List.length_append,
              List.length_singleton, List.length_nil, MAX_UNDO] at hlt
            have e2 : (a :: t).length + (b :: bs).length - MAX_UNDO =
                ((t ++ [b]).length + bs.length - MAX_UNDO) + 1 := by
              simp only [List.length_cons, List.length_append, List.length_singleton,
                List.length_nil, MAX_UNDO]
              omega
            rw [e2, List.cons_append, List.drop_succ_cons, List.append_assoc,
              List.singleton_append]
      next hlt =>
        have e3 : (stack ++ [b]).length + bs.length - MAX_UNDO =
            stack.length + (b :: bs).length - MAX_UNDO := by
          simp only [List.length_append, List.length_singleton, List.length_cons,
            List.length_nil, MAX_UNDO]
          omega
        rw [e3, List.append_assoc, List.singleton_append]

/-- Popping the whole history returns the snapshots newest first. -/
theorem popAll_eq_reverse {α : Type} (s : List α) : popAll s = s.reverse := by
  suffices haux : ∀ (fuel : Nat) (t : List α), t.length ≤ fuel →
      popAllAux fuel t = t.reverse by
    exact haux s.length s (Nat.le_refl _)
  intro fuel
  induction fuel with
  | zero =>
      intro t ht
      rw [Nat.le_zero, List.length_eq_zero] at ht
      rw [ht]
      rfl
  | succ fuel ih =>
      intro t ht
      cases t with
      | nil => rfl
      | cons x xs =>
          have hne : x :: xs ≠ [] := List.cons_ne_nil x xs
          have hpop : popAllAux (fuel + 1) (x :: xs) =
              (x :: xs).getLast hne :: popAllAux fuel (x :: xs).dropLast := rfl
          rw [hpop, ih _ (by
            simp only [List.length_dropLast, List.length_cons] at ht ⊢
            omega)]
          conv_rhs => rw [← List.dropLast_append_getLast hne]
          rw [List.reverse_append, List.reverse_singleton, List.singleton_append]

/-- Claim C2: the undo history is a strict LIFO stack of snapshots with
capacity `MAX_UNDO = 40` and FIFO eviction.  Pushing at most 40 snapshots and
then popping them all returns them in reverse push order; after 41 or more
pushes of pairwise distinct snapshots, the earliest snapshot is no longer
retrievable by popping. -/
theorem undo_lifo_and_eviction {α : Type} (snapshots : List α) :
    (snapshots.length ≤ MAX_UNDO →
      popAll (pushAll [] snapshots) = snapshots.reverse) ∧
    (∀ b : α, MAX_UNDO + 1 ≤ snapshots.length → snapshots.Nodup →
      snapshots.head? = some b → b ∉ popAll (pushAll [] snapshots)) := by
  have hbase : pushAll ([] : List α) snapshots =
      snapshots.drop (snapshots.length - MAX_UNDO) := by
    rw [pushAll_eq_drop snapshots [] (by simp)]
    simp
  constructor
  · intro hlen
    rw [hbase, Nat.sub_eq_zero_of_le hlen, List.drop_zero, popAll_eq_reverse]
  · intro b hlen hnd hhead hmem
    rw [hbase, popAll_eq_reverse, List.mem_reverse] at hmem
    cases snapshots with
    | nil => cases hhead
    | cons a t =>
        have hab : a = b := by
          rw [List.head?_cons] at hhead
          exact Option.some.inj hhead
        subst hab
        simp only [List.length_cons] at hlen
        have hk : (a :: t).length - MAX_UNDO = (t.length - MAX_UNDO) + 1 := by
          simp only [List.length_cons]; omega
        rw [hk, List.drop_succ_cons] at hmem
        have hat : a ∈ t := List.drop_subset _ t hmem
        rw [List.nodup_cons] at hnd
        exact hnd.1 hat

/-- Concrete instances of C2: three pushes pop back in reverse order, and
after 41 distinct pushes the first snapshot is gone. -/
theorem undo_lifo_and_eviction_witness :
    popAll (pushAll ([] : List Nat) [10, 20, 30]) = [30, 20, 10] ∧
    0 ∉ popAll (pushAll ([] : List Nat) (List.range 41)) := by
  constructor
  · exact (undo_lifo_and_eviction [10, 20, 30]).1 (by decide)
  · exact (undo_lifo_and_eviction (List.range 41)).2 0 (by decide)
      (List.nodup_range 41) (by decide)

/-! ## C10 — the empty-paste-area branch is unreachable -/

/-- Claim C10 (implicit): for every non-null clipboard with positive width and
height and every canvas size of at least 1, the clamped paste origin stays
within `[0, N-1]`, both clamped paste extents are at least 1, and therefore
the out-of-bounds no-op branch of `pasteSelection` can never fire. -/
theorem paste_area_never_empty (st : EditorState) (clip : Clipboard)
    (hc : st.clipboard = some clip) (hn : 1 ≤ st.canvasSize)
    (hw : 1 ≤ clip.width) (hh : 1 ≤ clip.height) :
    0 ≤ pasteX st.canvasSize st.selection clip ∧
    pasteX st.canvasSize st.selection clip ≤ (st.canvasSize : Int) - 1 ∧
    0 ≤ pasteY st.canvasSize st.selection clip ∧
    pasteY st.canvasSize st.selection clip ≤ (st.canvasSize : Int) - 1 ∧
    1 ≤ pasteWidth st.canvasSize st.selection clip ∧
    1 ≤ pasteHeight st.canvasSize st.selection clip ∧
    (pasteSelection st).status ≠ EditorStatus.pasteOutOfBounds ∧
    (pasteSelection st).floating.isSome = true := by
  have hn' : (1 : Int) ≤ (st.canvasSize : Int) := by exact_mod_cast hn
  have hw' : (1 : Int) ≤ (clip.width : Int) := by exact_mod_cast hw
  have hh' : (1 : Int) ≤ (clip.height : Int) := by exact_mod_cast hh
  have hpx : 0 ≤ pasteX st.canvasSize st.selection clip ∧
      pasteX st.canvasSize st.selection clip ≤ (st.canvasSize : Int) - 1 := by
    unfold pasteX
    omega
  have hpy : 0 ≤ pasteY st.canvasSize st.selection clip ∧
      pasteY st.canvasSize st.selection clip ≤ (st.canvasSize : Int) - 1 := by
    unfold pasteY
    omega
  have hpw : 1 ≤ pasteWidth st.canvasSize st.selection clip := by
    unfold pasteWidth
    omega
  have hph : 1 ≤ pasteHeight st.canvasSize st.selection clip := by
    unfold pasteHeight
    omega
  refine ⟨hpx.1, hpx.2, hpy.1, hpy.2, hpw, hph, ?_, ?_⟩
  · unfold pasteSelection
    rw [hc]
    dsimp only
    rw [if_neg]
    · intro he
      cases he
    · intro hor
      rcases hor with h0 | h0 <;> omega
  · unfold pasteSelection
    rw [hc]
    dsimp only
    rw [if_neg]
    · rfl
    · intro hor
      rcases hor with h0 | h0 <;> omega


/-- Concrete instance of C10: even pasting a 4×4 block copied from the far
corner of a 16×16 canvas yields positive clamped extents and takes the
success branch. -/
theorem paste_area_never_empty_witness :
    1 ≤ pasteWidth demoPasteEdgeState.canvasSize demoPasteEdgeState.selection
        { width := 4, height := 4, pixels := demoGrayPix, sourceX := 14, sourceY := 14 } ∧
    (pasteSelection demoPasteEdgeState).status ≠ EditorStatus.pasteOutOfBounds := by
  have h := paste_area_never_empty demoPasteEdgeState
    { width := 4, height := 4, pixels := demoGrayPix, sourceX := 14, sourceY := 14 }
    rfl (by decide) (by decide) (by decide)
  exact ⟨h.2.2.2.2.1, h.2.2.2.2.2.2.1⟩

/-! ## C4 — the paste contract -/

/-- Claim C4: for every non-empty clipboard, paste targets the active
selection's origin when one exists and otherwise the clamp of
`(sourceX+1, sourceY+1)` into `[0, N-1]`; the pasted extents are truncated
(never rejected) to fit the canvas; the empty-area case is a no-op carrying
the out-of-bounds signal; and on success exactly one undo snapshot of the
pre-paste buffer is pushed, the truncated block is composited onto the
canvas, a floating block carrying the pre-paste state is created, the tool is
force-switched to select, and the selection is set to the pasted footprint. -/
theorem pasteSelection_spec (st : EditorState) (clip : Clipboard)
    (hc : st.clipboard = some clip) :
    (∀ s : Sel, st.selection = some s →
      (s.x : Int) ≤ (st.canvasSize : Int) - 1 →
      (s.y : Int) ≤ (st.canvasSize : Int) - 1 →
      pasteX st.canvasSize st.selection clip = s.x ∧
      pasteY st.canvasSize st.selection clip = s.y) ∧
    (st.selection = none →
      pasteX st.canvasSize st.selection clip =
        max 0 (min ((clip.sourceX : Int) + 1) ((st.canvasSize : Int) - 1)) ∧
      pasteY st.canvasSize st.selection clip =
        max 0 (min ((clip.sourceY : Int) + 1) ((st.canvasSize : Int) - 1))) ∧
    (pasteWidth st.canvasSize st.selection clip ≤ (clip.width : Int) ∧
      pasteX st.canvasSize st.selection clip +
        pasteWidth st.canvasSize st.selection clip ≤ (st.canvasSize : Int) ∧
      pasteHeight st.canvasSize st.selection clip ≤ (clip.height : Int) ∧
      pasteY st.canvasSize st.selection clip +
        pasteHeight st.canvasSize st.selection clip ≤ (st.canvasSize : Int)) ∧
    (pasteWidth st.canvasSize st.selection clip = 0 ∨
        pasteHeight st.canvasSize st.selection clip = 0 →
      pasteSelection st = { st with status := EditorStatus.pasteOutOfBounds }) ∧
    (1 ≤ pasteWidth st.canvasSize st.selection clip →
     1 ≤ pasteHeight st.canvasSize st.selection clip →
      (pasteSelection st).undoStack = pushUndo st.undoStack st.pixels ∧
      (pasteSelection st).undoStack.getLast? = some st.pixels ∧
      (pasteSelection st).pixels =
        blitBlockOnCanvas st.pixels st.canvasSize
          (truncatedClipBlock clip (pasteWidth st.canvasSize st.selection clip).toNat
            (pasteHeight st.canvasSize st.selection clip).toNat)
          (pasteWidth st.canvasSize st.selection clip).toNat
          (pasteHeight st.canvasSize st.selection clip).toNat
          (pasteX st.canvasSize st.selection clip).toNat
          (pasteY st.canvasSize st.selection clip).toNat ∧
      (pasteSelection st).floating = some
        { x := (pasteX st.canvasSize st.selection clip).toNat
          y := (pasteY st.canvasSize st.selection clip).toNat
          width := (pasteWidth st.canvasSize st.selection clip).toNat
          height := (pasteHeight st.canvasSize st.selection clip).toNat
          pixels := truncatedClipBlock clip (pasteWidth st.canvasSize st.selection clip).toNat
            (pasteHeight st.canvasSize st.selection clip).toNat
          basePixels := st.pixels
          restorePixels := st.pixels
          restoreSelection := st.selection
          restoreTool := st.tool } ∧
      (pasteSelection st).tool = Tool.select ∧
      (pasteSelection st).selection = some
        ⟨(pasteX st.canvasSize st.selection clip).toNat,
          (pasteY st.canvasSize st.selection clip).toNat,
          (pasteWidth st.canvasSize st.selection clip).toNat,
          (pasteHeight st.canvasSize st.selection clip).toNat⟩) := by
  have hbx : ∀ s : Sel, st.selection = some s →
      pasteBaseX st.canvasSize st.selection clip = s.x := by
    intro s hs; rw [hs]; rfl
  have hby : ∀ s : Sel, st.selection = some s →
      pasteBaseY st.canvasSize st.selection clip = s.y := by
    intro s hs; rw [hs]; rfl
  have hbx0 : st.selection = none →
      pasteBaseX st.canvasSize st.selection clip =
        min ((clip.sourceX : Int) + 1) ((st.canvasSize : Int) - 1) := by
    intro hs; rw [hs]; rfl
  have hby0 : st.selection = none →
      pasteBaseY st.canvasSize st.selection clip =
        min ((clip.sourceY : Int) + 1) ((st.canvasSize : Int) - 1) := by
    intro hs; rw [hs]; rfl
  refine ⟨?_, ?_, ?_, ?_, ?_⟩
  · intro s hs hx hy
    rw [pasteX, pasteY, hbx s hs, hby s hs]
    constructor <;> omega
  · intro hs
    rw [pasteX, pasteY, hbx0 hs, hby0 hs]
    constructor <;> omega
  · refine ⟨?_, ?_, ?_, ?_⟩ <;>
      simp only [pasteWidth, pasteHeight, pasteX, pasteY] <;> omega
  · intro hor
    unfold pasteSelection
    rw [hc]
    dsimp only
    rw [if_pos hor]
  · intro hw hh
    unfold pasteSelection
    rw [hc]
    dsimp only
    rw [if_neg]
    · refine ⟨rfl, getLast?_pushUndo _ _, rfl, ?_, rfl, rfl⟩
      rw [cloneSelection_eq]
      rfl
    · intro hor
      rcases hor with h0 | h0 <;> omega


/-- Concrete instance of C4 (Scenario C): pasting a 4×4 block copied at
(0,0) with no active selection lands at (1,1), force-switches the tool to
select and selects the 4×4 footprint. -/
theorem pasteSelection_spec_witness :
    (pasteSelection demoPasteState).tool = Tool.select ∧
    (pasteSelection demoPasteState).selection = some ⟨1, 1, 4, 4⟩ ∧
    (pasteSelection demoPasteState).undoStack.getLast? =
      some demoPasteState.pixels := by
  have h := pasteSelection_spec demoPasteState
    { width := 4, height := 4, pixels := demoGrayPix, sourceX := 0, sourceY := 0 } rfl
  obtain ⟨-, -, -, -, hsucc⟩ := h
  obtain ⟨-, hlast, -, -, htool, hsel⟩ := hsucc (by decide) (by decide)
  refine ⟨htool, ?_, hlast⟩
  rw [hsel]
  decide

/-! ## C8 — the raster line is gap-free and endpoint-inclusive -/

/-- A list whose optional last element is known contains that element. -/
theorem mem_of_getLast?_some {α : Type} {l : List α} {x : α}
    (h : l.getLast? = some x) : x ∈ l := by
  cases l with
  | nil => cases h
  | cons a t =>
      rw [List.getLast?_eq_getLast (a :: t) (List.cons_ne_nil a t)] at h
      rw [← Option.some.inj h]
      exact List.getLast_mem _

/-- Invariant proof for the Bresenham loop.  With `a`/`b` the remaining
signed-projected distances `(x1-cx)*sx` and `(y1-cy)*sy`, both within
`[0, dx]`/`[0, dy]`, and the error term determined by the walk, the loop with
more than `a + b` fuel starts at the current cell, ends at the endpoint, and
every step is an 8-neighbour move. -/
theorem rasterLineLoop_spec (x1 y1 dx dy sx sy : Int)
    (hdx : 0 ≤ dx) (hdy : 0 ≤ dy)
    (hsx : sx = 1 ∨ sx = -1) (hsy : sy = 1 ∨ sy = -1) :
    ∀ (fuel : Nat) (cx cy err : Int),
      0 ≤ (x1 - cx) * sx → (x1 - cx) * sx ≤ dx →
      0 ≤ (y1 - cy) * sy → (y1 - cy) * sy ≤ dy →
      err = dx - dy + (x1 - cx) * sx * dy - (y1 - cy) * sy * dx →
      (x1 - cx) * sx + (y1 - cy) * sy < (fuel : Int) →
      (rasterLineLoop x1 y1 dx dy sx sy fuel cx cy err).head? = some (cx, cy) ∧
      (rasterLineLoop x1 y1 dx dy sx sy fuel cx cy err).getLast? = some (x1, y1) ∧
      List.Chain' adjacent8 (rasterLineLoop x1 y1 dx dy sx sy fuel cx cy err) := by
  have hsx2 : sx * sx = 1 := by rcases hsx with h | h <;> rw [h] <;> norm_num
  have hsy2 : sy * sy = 1 := by rcases hsy with h | h <;> rw [h] <;> norm_num
  intro fuel
  induction fuel with
  | zero =>
      intro cx cy err ha0 ha1 hb0 hb1 herr hfuel
      exfalso
      norm_num at hfuel
      linarith
  | succ fuel ih =>
      intro cx cy err ha0 ha1 hb0 hb1 herr hfuel
      by_cases hend : cx = x1 ∧ cy = y1
      · have hred : rasterLineLoop x1 y1 dx dy sx sy (fuel + 1) cx cy err
            = [(cx, cy)] := by
          rw [rasterLineLoop, if_pos hend]
        rw [hred]
        obtain ⟨hx, hy⟩ := hend
        subst hx
        subst hy
        exact ⟨rfl, rfl, List.chain'_singleton _⟩
      · obtain ⟨a, hA⟩ : ∃ v : Int, v = (x1 - cx) * sx := ⟨_, rfl⟩
        obtain ⟨b, hB⟩ : ∃ v : Int, v = (y1 - cy) * sy := ⟨_, rfl⟩
        rw [← hA] at ha0 ha1
        rw [← hB] at hb0 hb1
        rw [← hA, ← hB] at herr hfuel
        have hxne : a = 0 → cx = x1 := by
          intro h0
          rw [h0] at hA
          rcases mul_eq_zero.mp hA.symm with h' | h'
          · linarith
          · rcases hsx with h | h <;> rw [h] at h' <;> cases h'
        have hyne : b = 0 → cy = y1 := by
          intro h0
          rw [h0] at hB
          rcases mul_eq_zero.mp hB.symm with h' | h'
          · linarith
          · rcases hsy with h | h <;> rw [h] at h' <;> cases h'
        have hab : 1 ≤ a + b := by
          by_contra hcon
          push_neg at hcon
          have haz : a = 0 := by linarith
          have hbz : b = 0 := by linarith
          exact hend ⟨hxne haz, hyne hbz⟩
        have hcond1a : 2 * err > -dy → 1 ≤ a := by
          intro hc
          by_contra hna
          push_neg at hna
          have haz : a = 0 := by linarith
          have hb1' : 1 ≤ b := by linarith
          have hdy1 : 1 ≤ dy := by linarith
          have hbdx : dx ≤ b * dx := le_mul_of_one_le_left hdx hb1'
          have h0dy : a * dy = 0 := by rw [haz]; ring
          linarith
        have hcond2b : 2 * err < dx → 1 ≤ b := by
          intro hc
          by_contra hnb
          push_neg at hnb
          have hbz : b = 0 := by linarith
          have ha1' : 1 ≤ a := by linarith
          have hady : dy ≤ a * dy := le_mul_of_one_le_left hdy ha1'
          have h0dx : b * dx = 0 := by rw [hbz]; ring
          linarith
        have hprog : 2 * err > -dy ∨ 2 * err < dx := by
          by_contra hcon
          push_neg at hcon
          obtain ⟨hc1, hc2⟩ := hcon
          have hdx0 : dx = 0 := by linarith
          have hdy0 : dy = 0 := by linarith
          have haz : a = 0 := by linarith
          have hbz : b = 0 := by linarith
          linarith
        have haa : (x1 - (cx + sx)) * sx = a - 1 := by
          rw [hA]
          linear_combination (-1 : Int) * hsx2
        have hbb : (y1 - (cy + sy)) * sy = b - 1 := by
          rw [hB]
          linear_combination (-1 : Int) * hsy2
        have hfuel' : a + b < (fuel : Int) + 1 := by
          push_cast at hfuel
          linarith
        rw [rasterLineLoop, if_neg hend]
        dsimp only
        by_cases hc1 : 2 * err > -dy <;> by_cases hc2 : 2 * err < dx
        · -- both coordinates advance
          simp only [if_pos hc1, if_pos hc2]
          have h1a : 1 ≤ a := hcond1a hc1
          have h1b : 1 ≤ b := hcond2b hc2
          obtain ⟨ihh, ihl, ihc⟩ := ih (cx + sx) (cy + sy) (err - dy + dx)
            (by rw [haa]; linarith) (by rw [haa]; linarith)
            (by rw [hbb]; linarith) (by rw [hbb]; linarith)
            (by rw [haa, hbb]; linear_combination herr)
            (by rw [haa, hbb]; linarith)
          obtain ⟨q, t, hqt⟩ : ∃ q t,
              rasterLineLoop x1 y1 dx dy sx sy fuel (cx + sx) (cy + sy)
                (err - dy + dx) = q :: t := by
            cases hL : rasterLineLoop x1 y1 dx dy sx sy fuel (cx + sx) (cy + sy)
                (err - dy + dx) with
            | nil => rw [hL] at ihh; cases ihh
            | cons q t => exact ⟨q, t, rfl⟩
          have hq : q = (cx + sx, cy + sy) := by
            rw [hqt] at ihh
            exact Option.some.inj ihh
          refine ⟨rfl, ?_, ?_⟩
          · rw [hqt, List.getLast?_cons_cons, ← hqt]
            exact ihl
          · rw [hqt, List.chain'_cons]
            refine ⟨?_, ?_⟩
            · rw [hq]
              refine ⟨?_, ?_, ?_⟩
              · have hs : cx + sx - cx = sx := by ring
                simp only [hs]
                rcases hsx with h | h <;> rw [h] <;> decide
              · have hs : cy + sy - cy = sy := by ring
                simp only [hs]
                rcases hsy with h | h <;> rw [h] <;> decide
              · intro he
                have hfst : cx + sx = cx := congrArg Prod.fst he
                rcases hsx with h | h <;> rw [h] at hfst <;> omega
            · rw [← hqt]
              exact ihc
        · -- only x advances
          simp only [if_pos hc1, if_neg hc2]
          have h1a : 1 ≤ a := hcond1a hc1
          obtain ⟨ihh, ihl, ihc⟩ := ih (cx + sx) cy (err - dy)
            (by rw [haa]; linarith) (by rw [haa]; linarith)
            (by rw [← hB]; exact hb0) (by rw [← hB]; exact hb1)
            (by rw [haa, ← hB]; linear_combination herr)
            (by rw [haa, ← hB]; linarith)
          obtain ⟨q, t, hqt⟩ : ∃ q t,
              rasterLineLoop x1 y1 dx dy sx sy fuel (cx + sx) cy
                (err - dy) = q :: t := by
            cases hL : rasterLineLoop x1 y1 dx dy sx sy fuel (cx + sx) cy
                (err - dy) with
            | nil => rw [hL] at ihh; cases ihh
            | cons q t => exact ⟨q, t, rfl⟩
          have hq : q = (cx + sx, cy) := by
            rw [hqt] at ihh
            exact Option.some.inj ihh
          refine ⟨rfl, ?_, ?_⟩
          · rw [hqt, List.getLast?_cons_cons, ← hqt]
            exact ihl
          · rw [hqt, List.chain'_cons]
            refine ⟨?_, ?_⟩
            · rw [hq]
              refine ⟨?_, ?_, ?_⟩
              · have hs : cx + sx - cx = sx := by ring
                simp only [hs]
                rcases hsx with h | h <;> rw [h] <;> decide
              · have hs : cy - cy = 0 := by ring
                simp only [hs]
                decide
              · intro he
                have hfst : cx + sx = cx := congrArg Prod.fst he
                rcases hsx with h | h <;> rw [h] at hfst <;> omega
            · rw [← hqt]
              exact ihc
        · -- only y advances
          simp only [if_neg hc1, if_pos hc2]
          have h1b : 1 ≤ b := hcond2b hc2
          obtain ⟨ihh, ihl, ihc⟩ := ih cx (cy + sy) (err + dx)
            (by rw [← hA]; exact ha0) (by rw [← hA]; exact ha1)
            (by rw [hbb]; linarith) (by rw [hbb]; linarith)
            (by rw [hbb, ← hA]; linear_combination herr)
            (by rw [hbb, ← hA]; linarith)
          obtain ⟨q, t, hqt⟩ : ∃ q t,
              rasterLineLoop x1 y1 dx dy sx sy fuel cx (cy + sy)
                (err + dx) = q :: t := by
            cases hL : rasterLineLoop x1 y1 dx dy sx sy fuel cx (cy + sy)
                (err + dx) with
            | nil => rw [hL] at ihh; cases ihh
            | cons q t => exact ⟨q, t, rfl⟩
          have hq : q = (cx, cy + sy) := by
            rw [hqt] at ihh
            exact Option.some.inj ihh
          refine ⟨rfl, ?_, ?_⟩
          · rw [hqt, List.getLast?_cons_cons, ← hqt]
            exact ihl
          · rw [hqt, List.chain'_cons]
            refine ⟨?_, ?_⟩
            · rw [hq]
              refine ⟨?_, ?_, ?_⟩
              · have hs : cx - cx = 0 := by ring
                simp only [hs]
                decide
              · have hs : cy + sy - cy = sy := by ring
                simp only [hs]
                rcases hsy with h | h <;> rw [h] <;> decide
              · intro he
                have hsnd : cy + sy = cy := congrArg Prod.snd he
                rcases hsy with h | h <;> rw [h] at hsnd <;> omega
            · rw [← hqt]
              exact ihc
        · exfalso
          rcases hprog with hp | hp
          · exact hc1 hp
          · exact hc2 hp

/-- Claim C8: for all integer endpoints, `rasterLinePoints` starts at
`(x0, y0)`, ends at `(x1, y1)`, includes both endpoints, and every cell of
the walk is an 8-connected neighbour of its predecessor (no gaps). -/
theorem rasterLinePoints_spec (x0 y0 x1 y1 : Int) :
    (rasterLinePoints x0 y0 x1 y1).head? = some (x0, y0) ∧
    (rasterLinePoints x0 y0 x1 y1).getLast? = some (x1, y1) ∧
    (x0, y0) ∈ rasterLinePoints x0 y0 x1 y1 ∧
    (x1, y1) ∈ rasterLinePoints x0 y0 x1 y1 ∧
    List.Chain' adjacent8 (rasterLinePoints x0 y0 x1 y1) := by
  have hsx : (if x0 < x1 then (1 : Int) else -1) = 1 ∨
      (if x0 < x1 then (1 : Int) else -1) = -1 := by
    split
    · exact Or.inl rfl
    · exact Or.inr rfl
  have hsy : (if y0 < y1 then (1 : Int) else -1) = 1 ∨
      (if y0 < y1 then (1 : Int) else -1) = -1 := by
    split
    · exact Or.inl rfl
    · exact Or.inr rfl
  have hax : (x1 - x0) * (if x0 < x1 then (1 : Int) else -1) = |x1 - x0| := by
    split
    next h => rw [abs_of_nonneg (by linarith : (0 : Int) ≤ x1 - x0)]; ring
    next h =>
      rw [abs_of_nonpos (by omega : x1 - x0 ≤ 0)]
      ring
  have hay : (y1 - y0) * (if y0 < y1 then (1 : Int) else -1) = |y1 - y0| := by
    split
    next h => rw [abs_of_nonneg (by linarith : (0 : Int) ≤ y1 - y0)]; ring
    next h =>
      rw [abs_of_nonpos (by omega : y1 - y0 ≤ 0)]
      ring
  obtain ⟨hh, hl, hc⟩ := rasterLineLoop_spec x1 y1 |x1 - x0| |y1 - y0|
    (if x0 < x1 then 1 else -1) (if y0 < y1 then 1 else -1)
    (abs_nonneg _) (abs_nonneg _) hsx hsy
    ((|x1 - x0|).toNat + (|y1 - y0|).toNat + 1) x0 y0 (|x1 - x0| - |y1 - y0|)
    (by rw [hax]; exact abs_nonneg _) (by rw [hax])
    (by rw [hay]; exact abs_nonneg _) (by rw [hay])
    (by rw [hax, hay]; ring)
    (by
      rw [hax, hay]
      push_cast [Int.toNat_of_nonneg (abs_nonneg (x1 - x0)),
        Int.toNat_of_nonneg (abs_nonneg (y1 - y0))]
      linarith)
  exact ⟨hh, hl, List.mem_of_mem_head? (Option.mem_def.mpr hh),
    mem_of_getLast?_some hl, hc⟩

end DlaPixy
